import Mathlib

/-!
Verification of the LLM-response-analyzer backend core
(`app/services/metrics.py`, `app/services/experiment.py`,
`app/services/llm_service.py`, `app/api/experiments.py`,
`app/models/schemas.py`).

Shallow embedding conventions:
* Python `str` is `List Char`; Python floats are exact rationals `ℚ`;
  Python ints are `ℤ`/`ℕ`.
* A Python expression that can raise (`ZeroDivisionError`, a diverging
  `while` loop) is embedded as an `Option`-returning function; `none`
  means the Python code raises or does not terminate.  Loops that the
  source runs without a bound take a `fuel : ℕ` argument; divergence is
  `= none` for every fuel.
-/

set_option allowUnsafeReducibility true

attribute [local semireducible] Rat.mul Rat.add Rat.sub Rat.div Rat.inv Rat.neg Rat.normalize Rat.ceil Rat.floor Rat.ofScientific

/-- Chars of a string literal (helper for embedding Python string literals). -/
def S (s : String) : List Char := s.data

/-- Python whitespace for `str.split` / `str.strip` and regex `\s` (ASCII part). -/
def isPyWs (c : Char) : Bool :=
  c = ' ' || c = '\t' || c = '\n' || c = '\r' || c = '\x0b' || c = '\x0c'

/-- The sentence-terminator class `[.!?]` used by `re.split(r'[.!?]+', text)`. -/
def isPunct (c : Char) : Bool := c = '.' || c = '!' || c = '?'

/-- Regex `\w` (ASCII part): letters, digits, underscore. -/
def isWordChar (c : Char) : Bool := c.isAlphanum || c = '_'

/-- Python `str.strip()`: drop leading and trailing whitespace. -/
def pyStrip (l : List Char) : List Char :=
  ((l.dropWhile isPyWs).reverse.dropWhile isPyWs).reverse

/-- Python `str.lower()` (ASCII). -/
def pyLower (l : List Char) : List Char := l.map Char.toLower

/-- `re.split` on a maximal run of characters satisfying `p`
(the `[...]+` pattern): each maximal run of `p`-characters is one
separator occurrence, and the (possibly empty) segments between
separators are returned. -/
def splitRunAux (p : Char → Bool) : List Char → List (List Char)
  | [] => [[]]
  | c :: cs =>
    let r := splitRunAux p cs
    if p c then
      match cs with
      | [] => [] :: r
      | c' :: _ => if p c' then r else [] :: r
    else
      r.modifyHead (fun seg => c :: seg)

/-- Python `str.split()` with no argument: maximal non-whitespace runs,
empty pieces dropped. -/
def pyWords (l : List Char) : List (List Char) :=
  (splitRunAux isPyWs l).filter (fun s => !s.isEmpty)

/-- `re.findall(r'\b\w{3,}\b', l)`: maximal `\w`-runs of length at least 3. -/
def wordRuns3 (l : List Char) : List (List Char) :=
  ((splitRunAux (fun c => !isWordChar c) l).filter (fun s => !s.isEmpty)).filter
    (fun s => 3 ≤ s.length)

/-- Python `text.split('\n\n')`: split on the fixed two-newline separator,
scanning left to right, non-overlapping. -/
def splitNN : List Char → List (List Char)
  | '\n' :: '\n' :: rest => [] :: splitNN rest
  | c :: rest => (splitNN rest).modifyHead (fun seg => c :: seg)
  | [] => [[]]

/-- Python `text.count(c)` for a single-character needle. -/
def countSub1 (a : Char) : List Char → ℕ
  | [] => 0
  | x :: rest => (if x = a then 1 else 0) + countSub1 a rest

/-- Python `text.count(s)` for a two-character needle (non-overlapping,
left to right). -/
def countSub2 (a b : Char) : List Char → ℕ
  | x :: y :: rest =>
    if x = a && y = b then countSub2 a b rest + 1 else countSub2 a b (y :: rest)
  | _ => 0

/-- One attempted match of `re` pattern `\n\s*\d+[\.\)]\s+` at the head of
the list; on success returns the remainder after the (greedy) match. -/
def matchNum (l : List Char) : Option (List Char) :=
  match l with
  | '\n' :: r1 =>
    let r2 := r1.dropWhile isPyWs
    let ds := r2.takeWhile Char.isDigit
    let r3 := r2.dropWhile Char.isDigit
    if ds.isEmpty then none else
    match r3 with
    | c :: r4 =>
      if c = '.' || c = ')' then
        (if (r4.takeWhile isPyWs).isEmpty then none else some (r4.dropWhile isPyWs))
      else none
    | [] => none
  | _ => none

/-- One attempted match of `re` pattern `\n\s*[-•*]\s+` at the head. -/
def matchBullet (l : List Char) : Option (List Char) :=
  match l with
  | '\n' :: r1 =>
    let r2 := r1.dropWhile isPyWs
    match r2 with
    | c :: r3 =>
      if c = '-' || c = '•' || c = '*' then
        (if (r3.takeWhile isPyWs).isEmpty then none else some (r3.dropWhile isPyWs))
      else none
    | [] => none
  | _ => none

/-- One attempted match of `re` pattern `\n\s*[a-z][\.\)]\s+` at the head. -/
def matchLettered (l : List Char) : Option (List Char) :=
  match l with
  | '\n' :: r1 =>
    let r2 := r1.dropWhile isPyWs
    match r2 with
    | c :: c2 :: r3 =>
      if ('a' ≤ c && c ≤ 'z') && (c2 = '.' || c2 = ')') then
        (if (r3.takeWhile isPyWs).isEmpty then none else some (r3.dropWhile isPyWs))
      else none
    | _ => none
  | _ => none

/-- `len(re.findall(pattern, text))`: scan left to right; at a match skip
past it, otherwise advance one character.  `fuel` bounds the scan; the
wrapper passes the text length, which suffices because every step consumes
at least one character. -/
def scanCount (m : List Char → Option (List Char)) : ℕ → List Char → ℕ
  | 0, _ => 0
  | _ + 1, [] => 0
  | f + 1, c :: cs =>
    match m (c :: cs) with
    | some rest => 1 + scanCount m f rest
    | none => scanCount m f cs

/-- Number of non-overlapping matches of pattern `m` in `l`. -/
def countMatches (m : List Char → Option (List Char)) (l : List Char) : ℕ :=
  scanCount m l.length l

/-- Python substring test `needle in hay`. -/
def containsSub (needle : List Char) : List Char → Bool
  | [] => needle.isEmpty
  | c :: cs => needle.isPrefixOf (c :: cs) || containsSub needle cs

/- ------------------------------------------------------------------ -/
/- `app/services/metrics.py` — QualityMetricsCalculator                -/
/- ------------------------------------------------------------------ -/

/-- The fixed transition-word lexicon of `_coherence_score`. -/
def transitions : List (List Char) :=
  [S ("however"), S ("therefore"), S ("furthermore"), S ("moreover"),
   S ("additionally"), S ("consequently"), S ("thus"), S ("hence"),
   S ("meanwhile"), S ("subsequently"), S ("nevertheless"), S ("nonetheless"),
   S ("accordingly"), S ("indeed"), S ("specifically")]

/-- `re.split(r'[.!?]+', text)` followed by stripping and dropping empties,
as done in `_coherence_score` and `_structural_richness`. -/
def pySentences (text : List Char) : List (List Char) :=
  ((splitRunAux isPunct text).map pyStrip).filter (fun s => !s.isEmpty)

/-- `s[-1] in '.!?'` for a possibly empty `s` (false on empty). -/
def lastIsPunct (s : List Char) : Bool :=
  match s.getLast? with
  | some c => isPunct c
  | none => false

/-- `sum(1 for s in sentences if s and s[-1] in '.!?')`. -/
def properEndings (sentences : List (List Char)) : ℕ :=
  (sentences.filter (fun s => !s.isEmpty && lastIsPunct s)).length

/-- `QualityMetricsCalculator._coherence_score`. -/
def coherence_score (text : List Char) : ℚ :=
  if text.isEmpty || (pyStrip text).length < 10 then 0.3 else
  let sentences := pySentences text
  if sentences.length < 2 then 0.5 else
  let punctuation_score : ℚ :=
    if !sentences.isEmpty then
      min ((properEndings sentences : ℚ) / (sentences.length : ℚ)) 1
    else 0
  let score1 : ℚ := punctuation_score * 0.4
  let text_lower := pyLower text
  let transition_count : ℕ := (transitions.filter (fun t => containsSub t text_lower)).length
  let transition_score : ℚ :=
    min ((transition_count : ℚ) / max ((sentences.length : ℚ) * 0.3) 1) 1
  let score2 : ℚ := score1 + transition_score * 0.3
  let score3 : ℚ :=
    if 1 < sentences.length then
      let lengths : List ℚ := sentences.map (fun s => (s.length : ℚ))
      let avg_length : ℚ := lengths.sum / (lengths.length : ℚ)
      let variance : ℚ := (lengths.map (fun l => (l - avg_length) ^ 2)).sum / (lengths.length : ℚ)
      let variance_score : ℚ := 1 - min (|variance - 250| / 250) 1
      score2 + variance_score * 0.3
    else score2
  min score3 1

/-- The fixed question-word lexicon of `_completeness_score`. -/
def question_words : List (List Char) :=
  [S ("what"), S ("who"), S ("when"), S ("where"), S ("why"),
   S ("how"), S ("which"), S ("explain"), S ("describe"), S ("list")]

/-- The fixed stop-word set of `_completeness_score`. -/
def stop_words : List (List Char) :=
  [S ("the"), S ("a"), S ("an"), S ("and"), S ("or"), S ("but"),
   S ("in"), S ("on"), S ("at"), S ("to"), S ("for"), S ("of"),
   S ("with"), S ("by"), S ("is"), S ("are"), S ("was"), S ("were")]

/-- `set(w.lower() for w in re.findall(r'\b\w{3,}\b', l) if w.lower() not in stop_words)`. -/
def keywords (l : List Char) : List (List Char) :=
  (((wordRuns3 l).map pyLower).filter (fun w => !(stop_words.contains w))).dedup

/-- `QualityMetricsCalculator._completeness_score`. -/
def completeness_score (text prompt : List Char) : ℚ :=
  if text.isEmpty || prompt.isEmpty then 0 else
  let prompt_lower := pyLower prompt
  let _text_lower := pyLower text
  let found_questions : ℕ :=
    (question_words.filter (fun q => containsSub q prompt_lower)).length
  let score1 : ℚ :=
    if 0 < found_questions then
      (min ((text.length : ℚ) / max ((prompt.length : ℚ) * 2) 100) 1) * 0.4
    else 0
  let prompt_words := keywords prompt
  let text_words := keywords text
  let score2 : ℚ :=
    if !prompt_words.isEmpty then
      score1 + ((prompt_words.filter (fun w => text_words.contains w)).length : ℚ) /
        (prompt_words.length : ℚ) * 0.4
    else score1
  let length_score : ℚ := min ((text.length : ℚ) / max ((prompt.length : ℚ)) 50) 2 / 2
  min (score2 + length_score * 0.2) 1

/-- `QualityMetricsCalculator._length_appropriateness`.  Returns `none`
exactly where the Python code raises `ZeroDivisionError`
(`excess / ideal_max` with `ideal_max == 0`, i.e. nonempty text with an
empty prompt). -/
def length_appropriateness (text prompt : List Char) (tokens_used : Option ℤ) : Option ℚ :=
  if text.isEmpty then some 0 else
  let text_length : ℚ := (text.length : ℚ)
  let prompt_length : ℚ := (prompt.length : ℚ)
  let _prompt_complexity : ℚ :=
    ((pyWords prompt).length : ℚ) + (countSub1 '?' prompt : ℚ) * 5 + (countSub1 '!' prompt : ℚ) * 3
  let ideal_min : ℚ := prompt_length * 1.5
  let ideal_max : ℚ := prompt_length * 8
  let base : Option ℚ :=
    if ideal_min ≤ text_length ∧ text_length ≤ ideal_max then some 1
    else if text_length < ideal_min then some (text_length / ideal_min)
    else if ideal_max = 0 then none
    else some (max 0.5 (1 - (text_length - ideal_max) / ideal_max * 0.5))
  base.map (fun score0 =>
    let score1 :=
      match tokens_used with
      | some t =>
        if t ≠ 0 then
          let chars_per_token : ℚ := if 0 < t then text_length / (t : ℚ) else 4
          if chars_per_token < 2 then score0 * 0.8 else score0
        else score0
      | none => score0
    min score1 1)

/-- `tuple(words[i:i+3]) for i in range(len(words) - 3 + 1)`. -/
def pyNgrams (words : List (List Char)) : List (List (List Char)) :=
  (List.range (words.length - 2)).map (fun i => (words.drop i).take 3)

/-- `QualityMetricsCalculator._repetition_penalty`. -/
def repetition_penalty (text : List Char) : ℚ :=
  if text.isEmpty || text.length < 20 then 0.7 else
  let words := pyWords (pyLower text)
  if words.length < 5 then 0.8 else
  let ngrams := pyNgrams words
  if ngrams.isEmpty then 0.8 else
  let unique_ngrams : ℕ := ngrams.dedup.length
  let ratio1 : ℚ := 1 - (unique_ngrams : ℚ) / (ngrams.length : ℚ)
  let sentences :=
    ((splitRunAux isPunct text).filter (fun s => 10 < (pyStrip s).length)).map
      (fun s => pyLower (pyStrip s))
  let ratio2 : ℚ :=
    if 1 < sentences.length then
      let unique_sentences : ℕ := sentences.dedup.length
      max ratio1 ((1 - (unique_sentences : ℚ) / (sentences.length : ℚ)) * 0.7)
    else ratio1
  let score : ℚ := 1 - min ratio2 0.8
  max score 0.2

/-- Total count over the three list regexes of `_structural_richness`. -/
def list_patterns_count (text : List Char) : ℕ :=
  countMatches matchNum text + countMatches matchBullet text + countMatches matchLettered text

/-- `sum(text.count(marker) for marker in ['**', '*', '_', '`', '#'])`. -/
def formatting_count (text : List Char) : ℕ :=
  countSub2 '*' '*' text + countSub1 '*' text + countSub1 '_' text +
    countSub1 (Char.ofNat 96) text + countSub1 '#' text

/-- `QualityMetricsCalculator._structural_richness`. -/
def structural_richness (text : List Char) : ℚ :=
  if text.isEmpty then 0 else
  let paragraphs := splitNN text
  let score1 : ℚ :=
    if 1 < paragraphs.length then (min ((paragraphs.length : ℚ) / 5) 1) * 0.3 else 0.1
  let lc := list_patterns_count text
  let score2 : ℚ := if 0 < lc then score1 + (min ((lc : ℚ) / 3) 1) * 0.3 else score1
  let score3 : ℚ := score2 + (min ((formatting_count text : ℚ) / 5) 1) * 0.2
  let sentences := pySentences text
  let score4 : ℚ :=
    if 1 < sentences.length then
      let starters :=
        (sentences.take 10).map (fun s =>
          match pyWords s with
          | [] => ([] : List Char)
          | w :: _ => pyLower w)
      let unique_starters : ℕ := starters.dedup.length
      score3 + (min ((unique_starters : ℚ) / max ((sentences.length : ℚ)) 5) 1) * 0.2
    else score3
  min score4 1

/-- The record returned by `calculate_all` (the metrics dict / the
`QualityMetrics` pydantic schema). -/
structure Metrics where
  coherence_score : ℚ
  completeness_score : ℚ
  length_appropriateness : ℚ
  repetition_penalty : ℚ
  structural_richness : ℚ
  overall_score : ℚ
deriving DecidableEq

/-- `QualityMetricsCalculator.calculate_all`: all five sub-scores plus the
weighted overall score (weights 0.25 / 0.30 / 0.15 / 0.15 / 0.15, in the
dict's insertion order).  `none` when `_length_appropriateness` raises. -/
def calculate_all (response_text prompt : List Char) (tokens_used : Option ℤ) : Option Metrics :=
  match length_appropriateness response_text prompt tokens_used with
  | none => none
  | some la =>
    let coh := coherence_score response_text
    let comp := completeness_score response_text prompt
    let rep := repetition_penalty response_text
    let sr := structural_richness response_text
    some ⟨coh, comp, la, rep, sr,
      coh * 0.25 + comp * 0.30 + la * 0.15 + rep * 0.15 + sr * 0.15⟩

/- ------------------------------------------------------------------ -/
/- `app/models/schemas.py` — ParameterRange / ExperimentRequest        -/
/- ------------------------------------------------------------------ -/

/-- `ParameterRange` pydantic model: `min`, `max` (both required, `ge=0`),
optional `step`, optional explicit `values`. -/
structure ParameterRange where
  min : ℚ
  max : ℚ
  step : Option ℚ
  values : Option (List ℚ)
deriving DecidableEq

/-- The checks pydantic actually performs on a `ParameterRange`:
`min >= 0`, `max >= 0` (the `ge=0` field constraints) and the
`max_greater_than_min` validator.  There is no validator on `step`. -/
def validRange (r : ParameterRange) : Bool :=
  decide (0 ≤ r.min) && decide (0 ≤ r.max) && decide (r.min ≤ r.max)

/-- `ExperimentRequest`: the prompt (pydantic requires `min_length=1`) and
the five optional parameter ranges. -/
structure ExperimentRequest where
  prompt : List Char
  temperature : Option ParameterRange
  top_p : Option ParameterRange
  max_tokens : Option ParameterRange
  presence_penalty : Option ParameterRange
  frequency_penalty : Option ParameterRange
deriving DecidableEq

/- ------------------------------------------------------------------ -/
/- `app/services/experiment.py` — ExperimentService                    -/
/- ------------------------------------------------------------------ -/

/-- Python `int(x)` on a float/rational: truncation toward zero. -/
def pyInt (q : ℚ) : ℤ := if 0 ≤ q then ⌊q⌋ else ⌈q⌉

/-- Python `round` to the nearest integer, ties to even (banker's rounding). -/
def pyRoundInt (q : ℚ) : ℤ :=
  let f := ⌊q⌋
  let r := q - (f : ℚ)
  if r < 1 / 2 then f
  else if 1 / 2 < r then f + 1
  else if f % 2 = 0 then f else f + 1

/-- Python `round(current, 3)` as used by the step loop. -/
def round3 (q : ℚ) : ℚ := (pyRoundInt (q * 1000) : ℚ) / 1000

/-- The `while current <= param_range.max` accumulation loop of
`get_values`, with explicit fuel.  `none` for every fuel models the loop
never terminating (which happens for a negative step). -/
def step_values (mx st : ℚ) : ℕ → ℚ → Option (List ℚ)
  | 0, _ => none
  | fuel + 1, current =>
    if current ≤ mx then
      (step_values mx st fuel (current + st)).map (fun vs => round3 current :: vs)
    else
      some []

/-- Python truthiness of the optional `values` list. -/
def truthyValues : Option (List ℚ) → Bool
  | some (_ :: _) => true
  | _ => false

/-- The `get_values` helper inside
`ExperimentService.generate_parameter_combinations`. -/
def get_values (fuel : ℕ) (param_range : Option ParameterRange) (default : ℚ) :
    Option (List ℚ) :=
  match param_range with
  | none => some [default]
  | some r =>
    if truthyValues r.values then some (r.values.getD []) else
    match r.step with
    | some st =>
      if st ≠ 0 then
        (step_values r.max st fuel r.min).map (fun vs => if vs.isEmpty then [default] else vs)
      else
        some (if r.min ≠ r.max then [r.min, r.max] else [r.min])
    | none => some (if r.min ≠ r.max then [r.min, r.max] else [r.min])

/-- One concrete parameter combination (one dict produced by
`generate_parameter_combinations`). -/
structure Combination where
  temperature : ℚ
  top_p : ℚ
  max_tokens : ℤ
  presence_penalty : ℚ
  frequency_penalty : ℚ
deriving DecidableEq

/-- `ExperimentService.generate_parameter_combinations`: resolve the five
slots (defaults 0.7 / 1.0 / 1000 / 0.0 / 0.0, `int()` coercion for
`max_tokens`) and take the `itertools.product` in nesting order. -/
def generate_parameter_combinations (fuel : ℕ) (request : ExperimentRequest) :
    Option (List Combination) := do
  let temperatures ← get_values fuel request.temperature 0.7
  let top_ps ← get_values fuel request.top_p 1.0
  let max_tokens_qs ← get_values fuel request.max_tokens 1000
  let max_tokens_list := max_tokens_qs.map pyInt
  let presence_penalties ← get_values fuel request.presence_penalty 0.0
  let frequency_penalties ← get_values fuel request.frequency_penalty 0.0
  pure (temperatures.flatMap (fun t =>
    top_ps.flatMap (fun p =>
      max_tokens_list.flatMap (fun m =>
        presence_penalties.flatMap (fun pp =>
          frequency_penalties.map (fun fp =>
            (⟨t, p, m, pp, fp⟩ : Combination)))))))

/-- The `count_values` helper inside
`ExperimentService.validate_parameter_ranges` (its `default` argument is
never read, as in the source). -/
def count_values (param_range : Option ParameterRange) (_default : ℚ) : ℤ :=
  match param_range with
  | none => 1
  | some r =>
    if truthyValues r.values then ((r.values.getD []).length : ℤ) else
    match r.step with
    | some st =>
      if st ≠ 0 then max (pyInt ((r.max - r.min) / st) + 1) 1
      else (if r.min ≠ r.max then 2 else 1)
    | none => if r.min ≠ r.max then 2 else 1

/-- The product of the five per-slot counts computed by
`validate_parameter_ranges`. -/
def totalCombinations (request : ExperimentRequest) : ℤ :=
  count_values request.temperature 0.7 *
  count_values request.top_p 1.0 *
  count_values request.max_tokens 1000 *
  count_values request.presence_penalty 0.0 *
  count_values request.frequency_penalty 0.0

/-- `MAX_COMBINATIONS = 50`. -/
def MAX_COMBINATIONS : ℤ := 50

/-- `str(n)` for an integer. -/
def intDigits (n : ℤ) : List Char :=
  if n < 0 then '-' :: Nat.toDigits 10 n.natAbs else Nat.toDigits 10 n.toNat

/-- The f-string error message of `validate_parameter_ranges`. -/
def tooManyMsg (total : ℤ) : List Char :=
  S ("Too many parameter combinations (") ++ intDigits total ++
  S ("). Maximum allowed is ") ++ intDigits MAX_COMBINATIONS ++
  S (". Please reduce the ranges or step sizes.")

/-- `ExperimentService.validate_parameter_ranges`:
`(is_valid, error_message)`. -/
def validate_parameter_ranges (request : ExperimentRequest) : Bool × Option (List Char) :=
  if MAX_COMBINATIONS < totalCombinations request then
    (false, some (tooManyMsg (totalCombinations request)))
  else
    (true, none)

/- ------------------------------------------------------------------ -/
/- `app/services/llm_service.py` — LLMService.generate_batch           -/
/- ------------------------------------------------------------------ -/

/-- Success payload of one `generate_response` call:
`{"text": ..., "tokens_used": ...}`. -/
structure GenResult where
  text : List Char
  tokens_used : Option ℤ
deriving DecidableEq

/-- One element of the list returned by `generate_batch`: the response
dict merged (`**parameter_combinations[i]`) with the combination. -/
structure BatchEntry where
  text : List Char
  tokens_used : Option ℤ
  temperature : ℚ
  top_p : ℚ
  max_tokens : ℤ
  presence_penalty : ℚ
  frequency_penalty : ℚ
deriving DecidableEq

/-- The body of the collection loop of `generate_batch`: an exception
becomes `{"text": "Error: " + str(e), "tokens_used": None, **combo}`, a
success is the response dict updated with the combination. -/
def mkBatchEntry (combo : Combination) (res : Except (List Char) GenResult) : BatchEntry :=
  match res with
  | Except.error e =>
    ⟨S ("Error: ") ++ e, none, combo.temperature, combo.top_p, combo.max_tokens,
      combo.presence_penalty, combo.frequency_penalty⟩
  | Except.ok r =>
    ⟨r.text, r.tokens_used, combo.temperature, combo.top_p, combo.max_tokens,
      combo.presence_penalty, combo.frequency_penalty⟩

/-- `LLMService.generate_batch`.  `gen i c` is the settled result of the
task created for index `i` (combination `c`): `asyncio.gather(...,
return_exceptions=True)` returns the settled results in task-creation
order, whatever order the tasks complete in, and the loop then converts
each to a dict at its own index. -/
def generate_batch (gen : ℕ → Combination → Except (List Char) GenResult)
    (parameter_combinations : List Combination) : List BatchEntry :=
  parameter_combinations.enum.map (fun ic => mkBatchEntry ic.2 (gen ic.1 ic.2))

/- ------------------------------------------------------------------ -/
/- `app/api/experiments.py` — create_experiment                        -/
/- ------------------------------------------------------------------ -/

/-- A persisted `Response` row: parameters, text, token count and the
metrics dict computed for it. -/
structure StoredResponse where
  temperature : ℚ
  top_p : ℚ
  max_tokens : ℤ
  presence_penalty : ℚ
  frequency_penalty : ℚ
  response_text : List Char
  tokens_used : Option ℤ
  metrics : Metrics
deriving DecidableEq

/-- Build one `Response` row from a batch entry and its metrics dict. -/
def mkStored (r : BatchEntry) (m : Metrics) : StoredResponse :=
  ⟨r.temperature, r.top_p, r.max_tokens, r.presence_penalty, r.frequency_penalty,
    r.text, r.tokens_used, m⟩

/-- Fallback metrics record (never used when the prompt is nonempty). -/
def defaultMetrics : Metrics := ⟨0, 0, 0, 0, 0, 0⟩

/-- The metrics-computation loop of `create_experiment` (lines 74–94 of
`experiments.py`): every batch entry — successful or failed — is passed
through `calculate_all` and stored with the resulting metrics.  `none`
models `calculate_all` raising. -/
def attach_metrics (prompt : List Char) : List BatchEntry → Option (List StoredResponse)
  | [] => some []
  | r :: rest =>
    match calculate_all r.text prompt r.tokens_used with
    | none => none
    | some m => (attach_metrics prompt rest).map (fun tl => mkStored r m :: tl)

/-- The `create_experiment` route: validate, expand, run the batch, score
and store.  Errors are `(status_code, detail)`; status `0` stands for the
request never answering (the expansion loop diverging). -/
def create_experiment (fuel : ℕ)
    (gen : ℕ → Combination → Except (List Char) GenResult)
    (request : ExperimentRequest) : Except (ℕ × List Char) (List StoredResponse) :=
  let v := validate_parameter_ranges request
  if v.1 = false then Except.error (400, v.2.getD []) else
  match generate_parameter_combinations fuel request with
  | none => Except.error (0, [])
  | some combinations =>
    match attach_metrics request.prompt (generate_batch gen combinations) with
    | none => Except.error (500, S ("ZeroDivisionError"))
    | some stored => Except.ok stored

/- ------------------------------------------------------------------ -/
/- Helper lemmas                                                       -/
/- ------------------------------------------------------------------ -/

/-- A negative step never terminates the `while current <= max` loop when
it starts at or below `max`. -/
lemma step_values_none_of_neg (mx st : ℚ) (hst : st < 0) :
    ∀ (fuel : ℕ) (cur : ℚ), cur ≤ mx → step_values mx st fuel cur = none := by
  intro fuel
  induction fuel with
  | zero => intro cur _; rfl
  | succ f ih =>
    intro cur hc
    unfold step_values
    rw [if_pos hc, ih (cur + st) (by linarith)]
    rfl

/-- A spec with a negative step (and no explicit values) makes
`get_values` diverge for every fuel when `min ≤ max`. -/
lemma get_values_none_of_neg_step (fuel : ℕ) (mn mx st d : ℚ) (hst : st < 0)
    (hmm : mn ≤ mx) :
    get_values fuel (some ⟨mn, mx, some st, none⟩) d = none := by
  have hne : st ≠ 0 := ne_of_lt hst
  have hdiv := step_values_none_of_neg mx st hst fuel mn hmm
  simp [get_values, truthyValues, hne, hdiv]

/-- `_length_appropriateness` succeeds whenever the prompt is nonempty. -/
lemma length_appropriateness_isSome (t p : List Char) (tok : Option ℤ) (hp : p ≠ []) :
    (length_appropriateness t p tok).isSome = true := by
  have hpl : (0 : ℚ) < (p.length : ℚ) := by
    have : 0 < p.length := List.length_pos.mpr hp
    exact_mod_cast this
  have hmax : (p.length : ℚ) * 8 ≠ 0 := ne_of_gt (by positivity)
  simp only [length_appropriateness]
  split
  · rfl
  · split_ifs with h1 h2
    · rfl
    · rfl
    · rfl

/-- `calculate_all` succeeds whenever the prompt is nonempty. -/
lemma calculate_all_isSome (t p : List Char) (tok : Option ℤ) (hp : p ≠ []) :
    (calculate_all t p tok).isSome = true := by
  have h := length_appropriateness_isSome t p tok hp
  unfold calculate_all
  cases hla : length_appropriateness t p tok with
  | none => rw [hla] at h; simp at h
  | some la => rfl

/- ------------------------------------------------------------------ -/
/- C1                                                                  -/
/- ------------------------------------------------------------------ -/

/-- C1: evaluated at response text `"x"` and the empty prompt, the scorer
does not return a metrics record: `_length_appropriateness` divides by
`ideal_max = 8 * len(prompt) = 0` and the Python code raises
`ZeroDivisionError`, contradicting the claim that `calculate_all` never
raises and always yields scores in [0,1] for arbitrary (possibly empty)
inputs. -/
theorem c1_scorer_raises_on_empty_prompt :
    calculate_all (S ("x")) [] none = none := by decide

/- ------------------------------------------------------------------ -/
/- C7                                                                  -/
/- ------------------------------------------------------------------ -/

/-- C7: whenever `calculate_all` returns a metrics record, its
`overall_score` equals the fixed weighted sum
0.25·coherence + 0.30·completeness + 0.15·lengthAppropriateness +
0.15·repetitionPenalty + 0.15·structuralRichness, and the weight vector
sums to 1. -/
theorem c7_overall_is_fixed_weighted_sum (t p : List Char) (tok : Option ℤ) :
    ((calculate_all t p tok).map (fun m => m.overall_score) =
      (calculate_all t p tok).map (fun m =>
        m.coherence_score * 0.25 + m.completeness_score * 0.30 +
        m.length_appropriateness * 0.15 + m.repetition_penalty * 0.15 +
        m.structural_richness * 0.15)) ∧
    ((0.25 : ℚ) + 0.30 + 0.15 + 0.15 + 0.15 = 1) := by
  constructor
  · unfold calculate_all
    cases length_appropriateness t p tok <;> rfl
  · norm_num

/- ------------------------------------------------------------------ -/
/- C10                                                                 -/
/- ------------------------------------------------------------------ -/

/-- C10: a spec with `step = 0` and no explicit values list is treated by
both `get_values` and `count_values` exactly like a spec with no step
(`{min, max}` when they differ, `{min}` otherwise); the zero step is not
rejected by the schema checks and the step loop is never entered. -/
theorem c10_zero_step_treated_as_absent (mn mx d : ℚ) (fuel : ℕ) :
    get_values fuel (some ⟨mn, mx, some 0, none⟩) d =
      some (if mn ≠ mx then [mn, mx] else [mn]) ∧
    get_values fuel (some ⟨mn, mx, some 0, none⟩) d =
      get_values fuel (some ⟨mn, mx, none, none⟩) d ∧
    count_values (some ⟨mn, mx, some 0, none⟩) d =
      count_values (some ⟨mn, mx, none, none⟩) d ∧
    count_values (some ⟨mn, mx, some 0, none⟩) d = (if mn ≠ mx then 2 else 1) ∧
    validRange ⟨mn, mx, some 0, none⟩ = validRange ⟨mn, mx, none, none⟩ := by
  refine ⟨?_, ?_, ?_, ?_, rfl⟩ <;>
    simp [get_values, count_values, truthyValues]

/- ------------------------------------------------------------------ -/
/- C6                                                                  -/
/- ------------------------------------------------------------------ -/

/-- C6: the schema rejects `max < min`, but a non-positive step is *not*
rejected anywhere: `ParameterRange(min=0, max=1, step=-0.5)` passes the
pydantic checks, `validate_parameter_ranges` accepts the request, and
`generate_parameter_combinations` then never terminates (the step loop
diverges for every fuel) — no `RangeValidationError` is ever raised. -/
theorem c6_nonpositive_step_not_rejected :
    validRange ⟨0, 1, some (-(1 / 2)), none⟩ = true ∧
    validRange ⟨1, 0, none, none⟩ = false ∧
    (∀ fuel d, get_values fuel (some ⟨0, 1, some (-(1 / 2)), none⟩) d = none) ∧
    (∀ fuel, generate_parameter_combinations fuel
      ⟨S ("p"), some ⟨0, 1, some (-(1 / 2)), none⟩, none, none, none, none⟩ = none) ∧
    validate_parameter_ranges
      ⟨S ("p"), some ⟨0, 1, some (-(1 / 2)), none⟩, none, none, none, none⟩ = (true, none) := by
  have hget : ∀ fuel d, get_values fuel (some ⟨0, 1, some (-(1 / 2)), none⟩) d = none :=
    fun fuel d => get_values_none_of_neg_step fuel 0 1 (-(1 / 2)) d (by norm_num) (by norm_num)
  refine ⟨by decide, by decide, hget, ?_, by decide⟩
  intro fuel
  unfold generate_parameter_combinations
  rw [hget fuel 0.7]
  rfl

/- ------------------------------------------------------------------ -/
/- C2                                                                  -/
/- ------------------------------------------------------------------ -/

/-- A generation oracle that fails every call. -/
def genFail : ℕ → Combination → Except (List Char) GenResult :=
  fun _ _ => Except.error (S ("boom"))

/-- The all-defaults combination. -/
def c0 : Combination := ⟨0.7, 1, 1000, 0, 0⟩

/-- A generation oracle that fails exactly the call at index 1. -/
def genMix : ℕ → Combination → Except (List Char) GenResult :=
  fun i _ => if i = 1 then Except.error (S ("boom")) else Except.ok ⟨S ("ok text"), some 5⟩

/-- C2 counterexample: when the only generation call fails, the entry at
its index carries the text `"Error: boom"` — a nonempty text field — so
the claim that a failed entry carries "no text" is false on the code. -/
theorem c2_counterexample :
    (generate_batch genFail [c0]).map (fun r => r.text) = [S ("Error: boom")] ∧
    S ("Error: boom") ≠ ([] : List Char) := by
  exact ⟨rfl, by decide⟩

/-- C2 (amended): the batch result has the same length as the input, the
entry at index `i` is fully determined by combination `i` and the settled
result of call `i` alone (so order is preserved and other indices are
unaffected), and a failed call yields an entry whose text field holds
`"Error: " + str(e)` with a null token count. -/
theorem c2_theorem (gen : ℕ → Combination → Except (List Char) GenResult)
    (combos : List Combination) :
    (generate_batch gen combos).length = combos.length ∧
    (∀ i c, combos[i]? = some c →
      (generate_batch gen combos)[i]? = some (mkBatchEntry c (gen i c))) ∧
    (∀ e c, mkBatchEntry c (Except.error e) =
      ⟨S ("Error: ") ++ e, none, c.temperature, c.top_p, c.max_tokens,
        c.presence_penalty, c.frequency_penalty⟩) := by
  refine ⟨by simp [generate_batch], ?_, fun e c => rfl⟩
  intro i c hc
  simp [generate_batch, List.getElem?_map, List.getElem?_enum, hc]

/-- C2 witness: two combinations, call 1 failing — length 2, index 1 is
the error entry, index 0 the success entry. -/
theorem c2_witness :
    (generate_batch genMix [c0, c0]).length = 2 ∧
    (generate_batch genMix [c0, c0])[1]? =
      some (mkBatchEntry c0 (Except.error (S ("boom")))) ∧
    (generate_batch genMix [c0, c0])[0]? =
      some (mkBatchEntry c0 (Except.ok ⟨S ("ok text"), some 5⟩)) := by
  have h := c2_theorem genMix [c0, c0]
  exact ⟨h.1, h.2.1 1 c0 rfl, h.2.1 0 c0 rfl⟩

/- ------------------------------------------------------------------ -/
/- C3                                                                  -/
/- ------------------------------------------------------------------ -/

/-- C3 counterexample: with prompt `"hi"` and the single generation call
failing, the stored row for the failed entry *does* carry metrics — the
scorer's output on the substituted text `"Error: boom"` — contradicting
the claim that a failed outcome carries no metrics. -/
theorem c3_counterexample :
    attach_metrics (S ("hi")) (generate_batch genFail [c0]) =
      some [mkStored (mkBatchEntry c0 (Except.error (S ("boom"))))
        ((calculate_all (S ("Error: boom")) (S ("hi")) none).getD defaultMetrics)] ∧
    (calculate_all (S ("Error: boom")) (S ("hi")) none).isSome = true ∧
    (mkBatchEntry c0 (Except.error (S ("boom")))).text = S ("Error: boom") := by
  refine ⟨by decide, by decide, rfl⟩

/-- C3 (amended): for a nonempty prompt, *every* batch entry — failed or
successful — is stored, with metrics computed by `calculate_all` from its
own (possibly substituted error) text; no entry is dropped. -/
theorem c3_theorem (prompt : List Char) (hp : prompt ≠ []) (entries : List BatchEntry) :
    attach_metrics prompt entries =
      some (entries.map (fun r =>
        mkStored r ((calculate_all r.text prompt r.tokens_used).getD defaultMetrics))) ∧
    (attach_metrics prompt entries).map List.length = some entries.length ∧
    (∀ r ∈ entries, (calculate_all r.text prompt r.tokens_used).isSome = true) := by
  have hmain : attach_metrics prompt entries =
      some (entries.map (fun r =>
        mkStored r ((calculate_all r.text prompt r.tokens_used).getD defaultMetrics))) := by
    induction entries with
    | nil => rfl
    | cons r rest ih =>
      have h := calculate_all_isSome r.text prompt r.tokens_used hp
      unfold attach_metrics
      cases hm : calculate_all r.text prompt r.tokens_used with
      | none => rw [hm] at h; simp at h
      | some m => simp [hm, ih]
  refine ⟨hmain, by rw [hmain]; simp, fun r _ => calculate_all_isSome r.text prompt r.tokens_used hp⟩

/-- C3 witness: concrete instance at prompt `"hi"` with one failing and
one succeeding call. -/
theorem c3_witness :
    attach_metrics (S ("hi")) (generate_batch genMix [c0, c0]) =
      some ((generate_batch genMix [c0, c0]).map (fun r =>
        mkStored r ((calculate_all r.text (S ("hi")) r.tokens_used).getD defaultMetrics))) ∧
    S ("hi") ≠ ([] : List Char) := by
  exact ⟨(c3_theorem (S ("hi")) (by decide) _).1, by decide⟩

/- ------------------------------------------------------------------ -/
/- C9                                                                  -/
/- ------------------------------------------------------------------ -/

/-- `re.split` never returns an empty list of segments. -/
lemma splitRunAux_ne_nil (p : Char → Bool) (l : List Char) : splitRunAux p l ≠ [] := by
  induction l with
  | nil => simp [splitRunAux]
  | cons c cs ih =>
    simp only [splitRunAux]
    by_cases hc : p c = true
    · simp only [hc, if_true]
      cases cs with
      | nil => simp
      | cons c' cs' =>
        by_cases hc' : p c' = true
        · simpa [hc'] using ih
        · simp [hc']
    · have hc0 : p c = false := by simpa using hc
      simp only [hc0, Bool.false_eq_true, if_false]
      cases hr : splitRunAux p cs with
      | nil => exact absurd hr ih
      | cons h0 t0 => simp

/-- No character of any segment produced by `re.split` on `p`-runs
satisfies `p`: the separators are removed by the split. -/
lemma splitRunAux_no_sep (p : Char → Bool) :
    ∀ (l s : List Char), s ∈ splitRunAux p l → ∀ c ∈ s, p c = false := by
  intro l
  induction l with
  | nil =>
    intro s hs c hc
    simp [splitRunAux] at hs
    subst hs
    simp at hc
  | cons a as ih =>
    intro s hs c hc
    by_cases ha : p a = true
    · have hr : s ∈ ([] : List Char) :: splitRunAux p as ∨ s ∈ splitRunAux p as := by
        simp only [splitRunAux, ha, if_true] at hs
        cases as with
        | nil => left; exact hs
        | cons a' as' =>
          by_cases ha' : p a' = true
          · right; simpa [ha'] using hs
          · left; simpa [ha'] using hs
      rcases hr with h | h
      · rcases List.mem_cons.mp h with rfl | h2
        · simp at hc
        · exact ih s h2 c hc
      · exact ih s h c hc
    · have ha0 : p a = false := by simpa using ha
      obtain ⟨h0, t0, hrt⟩ : ∃ h0 t0, splitRunAux p as = h0 :: t0 := by
        cases hsa : splitRunAux p as with
        | nil => exact absurd hsa (splitRunAux_ne_nil p as)
        | cons h0 t0 => exact ⟨h0, t0, rfl⟩
      simp only [splitRunAux, ha0, Bool.false_eq_true, if_false, hrt,
        List.modifyHead] at hs
      rcases List.mem_cons.mp hs with rfl | h2
      · rcases List.mem_cons.mp hc with rfl | hch
        · exact ha0
        · exact ih h0 (hrt ▸ List.mem_cons_self h0 t0) c hch
      · exact ih s (hrt ▸ List.mem_cons_of_mem h0 h2) c hc

/-- Characters of a stripped string are characters of the string. -/
lemma mem_pyStrip {c : Char} {l : List Char} (h : c ∈ pyStrip l) : c ∈ l := by
  unfold pyStrip at h
  rw [List.mem_reverse] at h
  have h1 := (List.dropWhile_sublist (l := (l.dropWhile isPyWs).reverse) isPyWs).subset h
  rw [List.mem_reverse] at h1
  exact (List.dropWhile_sublist isPyWs).subset h1

/-- Dropping a `p`-prefix does not change the `!p`-filtered characters. -/
lemma filter_not_dropWhile (p : Char → Bool) (l : List Char) :
    (l.dropWhile p).filter (fun c => !p c) = l.filter (fun c => !p c) := by
  induction l with
  | nil => rfl
  | cons c cs ih =>
    by_cases hc : p c = true
    · simp [List.dropWhile_cons, hc, List.filter_cons, ih]
    · have hc0 : p c = false := by simpa using hc
      simp [List.dropWhile_cons, hc0]

/-- Stripping does not change the non-whitespace characters. -/
lemma filter_pyStrip (l : List Char) :
    (pyStrip l).filter (fun c => !isPyWs c) = l.filter (fun c => !isPyWs c) := by
  unfold pyStrip
  rw [List.filter_reverse, filter_not_dropWhile, List.filter_reverse,
    List.reverse_reverse, filter_not_dropWhile]

/-- With a punctuation component of 0, a transition component capped at 1
and a variance component capped at 1, the coherence sum is at most 0.6. -/
lemma coherence_combine_bound (a b : ℚ) (hb : 0 ≤ b) :
    0 * 0.4 + min a 1 * 0.3 + (1 - min b 1) * 0.3 ≤ (3 : ℚ) / 5 := by
  have h1 : min a 1 ≤ 1 := min_le_right _ _
  have h2 : (0 : ℚ) ≤ min b 1 := le_min hb (by norm_num)
  nlinarith

/-- C9: for a text with at least 10 non-whitespace characters that splits
into at least 2 sentences, no sentence ends in terminal punctuation (the
split removes the terminators), so the punctuation component of
`_coherence_score` is 0 and the score is at most 0.6. -/
theorem c9_coherence_capped (t : List Char)
    (h10 : 10 ≤ (t.filter (fun c => !isPyWs c)).length)
    (h2 : 2 ≤ (pySentences t).length) :
    properEndings (pySentences t) = 0 ∧ coherence_score t ≤ 3 / 5 := by
  have hpe : properEndings (pySentences t) = 0 := by
    unfold properEndings
    rw [List.length_eq_zero, List.filter_eq_nil_iff]
    intro s hs
    have hnopunct : ∀ c ∈ s, isPunct c = false := by
      intro c hc
      unfold pySentences at hs
      obtain ⟨hm, -⟩ := List.mem_filter.mp hs
      obtain ⟨seg, hseg, rfl⟩ := List.mem_map.mp hm
      exact splitRunAux_no_sep isPunct t seg hseg c (mem_pyStrip hc)
    cases hgl : s.getLast? with
    | none => simp [lastIsPunct, hgl]
    | some c =>
      have hcm : c ∈ s := List.mem_of_getLast?_eq_some hgl
      simp [lastIsPunct, hgl, hnopunct c hcm]
  refine ⟨hpe, ?_⟩
  have hfle : (t.filter (fun c => !isPyWs c)).length ≤ (pyStrip t).length := by
    calc (t.filter (fun c => !isPyWs c)).length
        = ((pyStrip t).filter (fun c => !isPyWs c)).length := by rw [filter_pyStrip]
      _ ≤ (pyStrip t).length := List.length_filter_le _ _
  have hstrip : ¬((pyStrip t).length < 10) := by omega
  have htne : t.isEmpty = false := by
    cases t with
    | nil => simp at h10
    | cons a l => rfl
  unfold coherence_score
  rw [htne]
  simp only [Bool.false_or, decide_eq_false hstrip, Bool.false_eq_true, if_false]
  rw [if_neg (by omega : ¬(pySentences t).length < 2)]
  rw [if_pos (by omega : 1 < (pySentences t).length)]
  have hsne : (pySentences t).isEmpty = false := by
    cases hps : pySentences t with
    | nil => rw [hps] at h2; simp at h2
    | cons a l => rfl
  rw [hsne]
  simp only [Bool.not_false, if_true, hpe, Nat.cast_zero, zero_div]
  have hmin0 : min (0 : ℚ) 1 = 0 := min_eq_left (by norm_num)
  rw [hmin0]
  refine le_trans (min_le_left _ _) ?_
  exact coherence_combine_bound _ _ (by positivity)

/-- C9 witness: a concrete two-sentence text. -/
theorem c9_witness :
    10 ≤ ((S ("Alpha beta gamma. Delta epsilon zeta.")).filter (fun c => !isPyWs c)).length ∧
    2 ≤ (pySentences (S ("Alpha beta gamma. Delta epsilon zeta."))).length ∧
    properEndings (pySentences (S ("Alpha beta gamma. Delta epsilon zeta."))) = 0 ∧
    coherence_score (S ("Alpha beta gamma. Delta epsilon zeta.")) ≤ 3 / 5 := by
  have h := c9_coherence_capped (S ("Alpha beta gamma. Delta epsilon zeta."))
    (by decide) (by decide)
  exact ⟨by decide, by decide, h.1, h.2⟩

/- ------------------------------------------------------------------ -/
/- C4 / C5                                                             -/
/- ------------------------------------------------------------------ -/

/-- The schema-plus-spec well-formedness used by the counting claims:
pydantic's `0 ≤ min ≤ max` and a nonnegative step when present. -/
def validStep : Option ℚ → Bool
  | none => true
  | some st => decide (0 ≤ st)

/-- Well-formedness of one range. -/
def wfRange (r : ParameterRange) : Bool :=
  decide (0 ≤ r.min) && decide (r.min ≤ r.max) && validStep r.step

/-- Well-formedness of one optional range. -/
def wfOpt : Option ParameterRange → Bool
  | none => true
  | some r => wfRange r

/-- Well-formedness of a whole request. -/
def wellFormedReq (req : ExperimentRequest) : Bool :=
  wfOpt req.temperature && wfOpt req.top_p && wfOpt req.max_tokens &&
  wfOpt req.presence_penalty && wfOpt req.frequency_penalty

/-- Unfolding equation of `step_values` at a successor fuel. -/
lemma step_values_succ (mx st : ℚ) (f : ℕ) (cur : ℚ) :
    step_values mx st (f + 1) cur =
      if cur ≤ mx then
        (step_values mx st f (cur + st)).map (fun vs => round3 cur :: vs)
      else some [] := rfl

/-- Unfolding equation of `get_values` on a present range. -/
lemma get_values_eq (fuel : ℕ) (r : ParameterRange) (d : ℚ) :
    get_values fuel (some r) d =
      if truthyValues r.values = true then some (r.values.getD []) else
      match r.step with
      | some st =>
        if st ≠ 0 then
          (step_values r.max st fuel r.min).map (fun vs => if vs.isEmpty then [d] else vs)
        else some (if r.min ≠ r.max then [r.min, r.max] else [r.min])
      | none => some (if r.min ≠ r.max then [r.min, r.max] else [r.min]) := rfl

/-- `get_values` when the explicit values list is truthy. -/
lemma get_values_values (fuel : ℕ) (r : ParameterRange) (d : ℚ)
    (hv : truthyValues r.values = true) :
    get_values fuel (some r) d = some (r.values.getD []) := by
  rw [get_values_eq, if_pos hv]

/-- `get_values` with no truthy values and no step. -/
lemma get_values_step_none (fuel : ℕ) (r : ParameterRange) (d : ℚ)
    (hv : truthyValues r.values = false) (hst : r.step = none) :
    get_values fuel (some r) d =
      some (if r.min ≠ r.max then [r.min, r.max] else [r.min]) := by
  rw [get_values_eq, hv]
  simp only [Bool.false_eq_true, if_false, hst]

/-- `get_values` with no truthy values and a present step. -/
lemma get_values_step_some (fuel : ℕ) (r : ParameterRange) (d : ℚ) (st : ℚ)
    (hv : truthyValues r.values = false) (hst : r.step = some st) :
    get_values fuel (some r) d =
      if st ≠ 0 then
        (step_values r.max st fuel r.min).map (fun vs => if vs.isEmpty then [d] else vs)
      else some (if r.min ≠ r.max then [r.min, r.max] else [r.min]) := by
  rw [get_values_eq, hv]
  simp only [Bool.false_eq_true, if_false, hst]

/-- Unfolding equation of `count_values` on a present range. -/
lemma count_values_eq (r : ParameterRange) (d : ℚ) :
    count_values (some r) d =
      if truthyValues r.values = true then ((r.values.getD []).length : ℤ) else
      match r.step with
      | some st =>
        if st ≠ 0 then max (pyInt ((r.max - r.min) / st) + 1) 1
        else (if r.min ≠ r.max then 2 else 1)
      | none => if r.min ≠ r.max then 2 else 1 := rfl

/-- `count_values` when the explicit values list is truthy. -/
lemma count_values_values (r : ParameterRange) (d : ℚ)
    (hv : truthyValues r.values = true) :
    count_values (some r) d = ((r.values.getD []).length : ℤ) := by
  rw [count_values_eq, if_pos hv]

/-- `count_values` with no truthy values and no step. -/
lemma count_values_step_none (r : ParameterRange) (d : ℚ)
    (hv : truthyValues r.values = false) (hst : r.step = none) :
    count_values (some r) d = if r.min ≠ r.max then 2 else 1 := by
  rw [count_values_eq, hv]
  simp only [Bool.false_eq_true, if_false, hst]

/-- `count_values` with no truthy values and a present step. -/
lemma count_values_step_some (r : ParameterRange) (d : ℚ) (st : ℚ)
    (hv : truthyValues r.values = false) (hst : r.step = some st) :
    count_values (some r) d =
      if st ≠ 0 then max (pyInt ((r.max - r.min) / st) + 1) 1
      else (if r.min ≠ r.max then 2 else 1) := by
  rw [count_values_eq, hv]
  simp only [Bool.false_eq_true, if_false, hst]

/-- Sound direction of the step loop: whenever it returns, the list has
exactly `⌊(max - cur)/step⌋ + 1` elements (positive step, `cur ≤ max`). -/
lemma step_values_length (mx st : ℚ) (hst : 0 < st) :
    ∀ (fuel : ℕ) (cur : ℚ) (l : List ℚ), step_values mx st fuel cur = some l →
      (cur ≤ mx ∧ (l.length : ℤ) = ⌊(mx - cur) / st⌋ + 1) ∨ (mx < cur ∧ l = []) := by
  intro fuel
  induction fuel with
  | zero =>
    intro cur l h
    exact absurd h (by simp [step_values])
  | succ f ih =>
    intro cur l h
    by_cases hc : cur ≤ mx
    · left
      refine ⟨hc, ?_⟩
      rw [step_values_succ, if_pos hc] at h
      obtain ⟨l', hl', rfl⟩ : ∃ l', step_values mx st f (cur + st) = some l' ∧
          l = round3 cur :: l' := by
        cases hsv : step_values mx st f (cur + st) with
        | none => rw [hsv] at h; simp at h
        | some l' => rw [hsv] at h; simp at h; exact ⟨l', rfl, h.symm⟩
      rcases ih (cur + st) l' hl' with ⟨h1, h2⟩ | ⟨h1, rfl⟩
      · have key : ⌊(mx - cur) / st⌋ = ⌊(mx - (cur + st)) / st⌋ + 1 := by
          have heq : (mx - cur) / st = (mx - (cur + st)) / st + 1 := by
            field_simp
            ring
          rw [heq]
          exact_mod_cast Int.floor_add_one ((mx - (cur + st)) / st)
        rw [List.length_cons, key]
        push_cast
        omega
      · have h0 : ⌊(mx - cur) / st⌋ = 0 := by
          rw [Int.floor_eq_zero_iff]
          refine Set.mem_Ico.mpr ⟨div_nonneg (by linarith) hst.le, ?_⟩
          rw [div_lt_one hst]
          linarith
        simp [h0]
    · right
      rw [step_values_succ, if_neg hc] at h
      simp at h
      exact ⟨lt_of_not_le hc, h⟩

/-- Completeness of the step loop: with fuel beyond `(max - cur)/step`
the loop returns. -/
lemma step_values_isSome (mx st : ℚ) (hst : 0 < st) :
    ∀ (n : ℕ) (cur : ℚ), (mx - cur) / st < (n : ℚ) →
      (step_values mx st (n + 1) cur).isSome = true := by
  intro n
  induction n with
  | zero =>
    intro cur h
    have hlt : mx < cur := by
      by_contra hc
      push_neg at hc
      have h0 : (0 : ℚ) ≤ (mx - cur) / st := div_nonneg (by linarith) hst.le
      norm_num at h
      linarith
    rw [step_values_succ, if_neg (not_le.mpr hlt)]
    rfl
  | succ n ih =>
    intro cur h
    by_cases hc : cur ≤ mx
    · have hlt : (mx - (cur + st)) / st < (n : ℚ) := by
        have heq : (mx - (cur + st)) / st = (mx - cur) / st - 1 := by
          field_simp
          ring
        rw [heq]
        push_cast at h
        linarith
      obtain ⟨vs, hvs⟩ := Option.isSome_iff_exists.mp (ih (cur + st) hlt)
      rw [step_values_succ, if_pos hc, hvs]
      rfl
    · rw [step_values_succ, if_neg hc]
      rfl

/-- The step loop is deterministic in the fuel: more fuel gives the same
answer. -/
lemma step_values_mono (mx st : ℚ) :
    ∀ (f1 f2 : ℕ) (cur : ℚ) (l : List ℚ), f1 ≤ f2 →
      step_values mx st f1 cur = some l → step_values mx st f2 cur = some l := by
  intro f1
  induction f1 with
  | zero =>
    intro f2 cur l _ h
    exact absurd h (by simp [step_values])
  | succ f ih =>
    intro f2 cur l hle h
    obtain ⟨f2p, rfl⟩ : ∃ f2p, f2 = f2p + 1 := ⟨f2 - 1, by omega⟩
    by_cases hc : cur ≤ mx
    · rw [step_values_succ, if_pos hc] at h ⊢
      cases hsv : step_values mx st f (cur + st) with
      | none => rw [hsv] at h; simp at h
      | some lp =>
        rw [hsv] at h
        rw [ih f2p (cur + st) lp (by omega) hsv]
        exact h
    · rw [step_values_succ, if_neg hc] at h ⊢
      exact h

/-- `get_values` is deterministic in the fuel. -/
lemma get_values_mono (f1 f2 : ℕ) (pr : Option ParameterRange) (d : ℚ) (l : List ℚ)
    (hle : f1 ≤ f2) (h : get_values f1 pr d = some l) : get_values f2 pr d = some l := by
  cases pr with
  | none => exact h
  | some r =>
    by_cases hv : truthyValues r.values = true
    · rw [get_values_values _ _ _ hv] at h ⊢
      exact h
    · have hv0 : truthyValues r.values = false := by simpa using hv
      cases hstep : r.step with
      | none =>
        rw [get_values_step_none _ _ _ hv0 hstep] at h ⊢
        exact h
      | some st =>
        rw [get_values_step_some _ _ _ _ hv0 hstep] at h ⊢
        by_cases hz : st ≠ 0
        · rw [if_pos hz] at h ⊢
          cases hsv : step_values r.max st f1 r.min with
          | none => rw [hsv] at h; simp at h
          | some vs =>
            rw [hsv] at h
            rw [step_values_mono _ _ f1 f2 _ _ hle hsv]
            exact h
        · rw [if_neg hz] at h ⊢
          exact h

/-- When `get_values` returns for a well-formed slot, `count_values`
reports exactly the length of the returned list. -/
lemma count_values_eq_length (pr : Option ParameterRange) (d : ℚ) (hw : wfOpt pr = true)
    (fuel : ℕ) (l : List ℚ) (h : get_values fuel pr d = some l) :
    count_values pr d = (l.length : ℤ) := by
  cases pr with
  | none =>
    simp [get_values] at h
    subst h
    rfl
  | some r =>
    simp only [wfOpt, wfRange, Bool.and_eq_true, decide_eq_true_eq] at hw
    obtain ⟨⟨hmin, hmm⟩, hstep⟩ := hw
    by_cases hv : truthyValues r.values = true
    · rw [get_values_values _ _ _ hv] at h
      injection h with h
      rw [count_values_values _ _ hv, h]
    · have hv0 : truthyValues r.values = false := by simpa using hv
      cases hst : r.step with
      | none =>
        rw [get_values_step_none _ _ _ hv0 hst] at h
        rw [count_values_step_none _ _ hv0 hst]
        injection h with h
        by_cases hne : r.min ≠ r.max
        · rw [if_pos hne] at h ⊢
          rw [← h]
          rfl
        · rw [if_neg hne] at h ⊢
          rw [← h]
          rfl
      | some st =>
        rw [get_values_step_some _ _ _ _ hv0 hst] at h
        rw [count_values_step_some _ _ _ hv0 hst]
        rw [hst] at hstep
        simp only [validStep, decide_eq_true_eq] at hstep
        by_cases hz : st ≠ 0
        · have hpos : 0 < st := lt_of_le_of_ne hstep (Ne.symm hz)
          rw [if_pos hz] at h ⊢
          cases hsv : step_values r.max st fuel r.min with
          | none => rw [hsv] at h; simp at h
          | some vs =>
            rw [hsv] at h
            simp at h
            rcases step_values_length r.max st hpos fuel r.min vs hsv with ⟨h1, h2⟩ | ⟨h1, _⟩
            · have hfl0 : (0 : ℤ) ≤ ⌊(r.max - r.min) / st⌋ :=
                Int.floor_nonneg.mpr (div_nonneg (by linarith) hpos.le)
              have hvnil : vs ≠ [] := by
                cases vs with
                | nil => simp at h2; omega
                | cons a as => simp
              rw [if_neg hvnil] at h
              subst h
              have hfl : pyInt ((r.max - r.min) / st) = ⌊(r.max - r.min) / st⌋ :=
                if_pos (div_nonneg (by linarith) hpos.le)
              rw [hfl, h2]
              omega
            · linarith
        · rw [if_neg hz] at h ⊢
          injection h with h
          by_cases hne : r.min ≠ r.max
          · rw [if_pos hne] at h ⊢
            rw [← h]
            rfl
          · rw [if_neg hne] at h ⊢
            rw [← h]
            rfl

/-- For a well-formed slot some fuel makes `get_values` return. -/
lemma get_values_total (pr : Option ParameterRange) (d : ℚ) (hw : wfOpt pr = true) :
    ∃ fuel l, get_values fuel pr d = some l := by
  cases pr with
  | none => exact ⟨0, [d], rfl⟩
  | some r =>
    simp only [wfOpt, wfRange, Bool.and_eq_true, decide_eq_true_eq] at hw
    obtain ⟨⟨hmin, hmm⟩, hstep⟩ := hw
    by_cases hv : truthyValues r.values = true
    · exact ⟨0, r.values.getD [], get_values_values 0 r d hv⟩
    · have hv0 : truthyValues r.values = false := by simpa using hv
      cases hst : r.step with
      | none =>
        exact ⟨0, if r.min ≠ r.max then [r.min, r.max] else [r.min],
          get_values_step_none 0 r d hv0 hst⟩
      | some st =>
        by_cases hz : st ≠ 0
        · have hpos : 0 < st := by
            rw [hst] at hstep
            simp only [validStep, decide_eq_true_eq] at hstep
            exact lt_of_le_of_ne hstep (Ne.symm hz)
          obtain ⟨n, hn⟩ := exists_nat_gt ((r.max - r.min) / st)
          obtain ⟨vs, hvs⟩ := Option.isSome_iff_exists.mp
            (step_values_isSome r.max st hpos n r.min hn)
          refine ⟨n + 1, if vs.isEmpty then [d] else vs, ?_⟩
          rw [get_values_step_some _ _ _ _ hv0 hst, if_pos hz, hvs]
          rfl
        · exact ⟨0, if r.min ≠ r.max then [r.min, r.max] else [r.min], by
            rw [get_values_step_some 0 r d st hv0 hst, if_neg hz]⟩

/-- Length of a flat map with constant inner length. -/
lemma length_flatMap_const {α β : Type} (l : List α) (f : α → List β) (c : ℕ)
    (h : ∀ a, (f a).length = c) : (l.flatMap f).length = l.length * c := by
  induction l with
  | nil => simp
  | cons a as ih =>
    simp [List.flatMap_cons, h a, ih]
    ring

/-- Closed form of `generate_parameter_combinations` once every slot
resolves. -/
lemma generate_eq (fuel : ℕ) (req : ExperimentRequest) (ts tps mts pps fps : List ℚ)
    (h1 : get_values fuel req.temperature 0.7 = some ts)
    (h2 : get_values fuel req.top_p 1.0 = some tps)
    (h3 : get_values fuel req.max_tokens 1000 = some mts)
    (h4 : get_values fuel req.presence_penalty 0.0 = some pps)
    (h5 : get_values fuel req.frequency_penalty 0.0 = some fps) :
    generate_parameter_combinations fuel req =
      some (ts.flatMap (fun t => tps.flatMap (fun p => (mts.map pyInt).flatMap (fun m =>
        pps.flatMap (fun pp => fps.map (fun fp =>
          (⟨t, p, m, pp, fp⟩ : Combination))))))) := by
  unfold generate_parameter_combinations
  rw [h1, h2, h3, h4, h5]
  rfl

/-- Length of the nested Cartesian product. -/
lemma product_length (ts tps mts pps fps : List ℚ) :
    (ts.flatMap (fun t => tps.flatMap (fun p => (mts.map pyInt).flatMap (fun m =>
      pps.flatMap (fun pp => fps.map (fun fp =>
        (⟨t, p, m, pp, fp⟩ : Combination))))))).length =
      ts.length * (tps.length * (mts.length * (pps.length * fps.length))) := by
  refine length_flatMap_const _ _ _ (fun t => ?_)
  refine length_flatMap_const _ _ _ (fun p => ?_)
  rw [show mts.length * (pps.length * fps.length) =
    (mts.map pyInt).length * (pps.length * fps.length) by rw [List.length_map]]
  refine length_flatMap_const _ _ _ (fun m => ?_)
  refine length_flatMap_const _ _ _ (fun pp => ?_)
  exact List.length_map _ _

/-- Core counting fact shared by the C4 and C5 theorems: for a
well-formed request, whenever the expansion returns, the count computed by
`validate_parameter_ranges` equals the length of the expanded list. -/
lemma total_eq_expand_len (req : ExperimentRequest) (hw : wellFormedReq req = true)
    (fuel : ℕ) (L : List Combination)
    (h : generate_parameter_combinations fuel req = some L) :
    totalCombinations req = (L.length : ℤ) := by
  simp only [wellFormedReq, Bool.and_eq_true] at hw
  obtain ⟨⟨⟨⟨hw1, hw2⟩, hw3⟩, hw4⟩, hw5⟩ := hw
  cases h1 : get_values fuel req.temperature 0.7 with
  | none => unfold generate_parameter_combinations at h; rw [h1] at h; simp at h
  | some ts =>
  cases h2 : get_values fuel req.top_p 1.0 with
  | none => unfold generate_parameter_combinations at h; rw [h1, h2] at h; simp at h
  | some tps =>
  cases h3 : get_values fuel req.max_tokens 1000 with
  | none => unfold generate_parameter_combinations at h; rw [h1, h2, h3] at h; simp at h
  | some mts =>
  cases h4 : get_values fuel req.presence_penalty 0.0 with
  | none => unfold generate_parameter_combinations at h; rw [h1, h2, h3, h4] at h; simp at h
  | some pps =>
  cases h5 : get_values fuel req.frequency_penalty 0.0 with
  | none => unfold generate_parameter_combinations at h; rw [h1, h2, h3, h4, h5] at h; simp at h
  | some fps =>
  rw [generate_eq fuel req ts tps mts pps fps h1 h2 h3 h4 h5] at h
  injection h with h
  subst h
  unfold totalCombinations
  rw [count_values_eq_length _ _ hw1 fuel ts h1,
    count_values_eq_length _ _ hw2 fuel tps h2,
    count_values_eq_length _ _ hw3 fuel mts h3,
    count_values_eq_length _ _ hw4 fuel pps h4,
    count_values_eq_length _ _ hw5 fuel fps h5,
    product_length]
  push_cast
  ring

/-- For a well-formed request the expansion terminates for some fuel. -/
lemma generate_total (req : ExperimentRequest) (hw : wellFormedReq req = true) :
    ∃ fuel L, generate_parameter_combinations fuel req = some L := by
  simp only [wellFormedReq, Bool.and_eq_true] at hw
  obtain ⟨⟨⟨⟨hw1, hw2⟩, hw3⟩, hw4⟩, hw5⟩ := hw
  obtain ⟨f1, l1, h1⟩ := get_values_total req.temperature 0.7 hw1
  obtain ⟨f2, l2, h2⟩ := get_values_total req.top_p 1.0 hw2
  obtain ⟨f3, l3, h3⟩ := get_values_total req.max_tokens 1000 hw3
  obtain ⟨f4, l4, h4⟩ := get_values_total req.presence_penalty 0.0 hw4
  obtain ⟨f5, l5, h5⟩ := get_values_total req.frequency_penalty 0.0 hw5
  refine ⟨f1 + f2 + f3 + f4 + f5, _, generate_eq _ req l1 l2 l3 l4 l5
    (get_values_mono f1 _ _ _ _ (by omega) h1)
    (get_values_mono f2 _ _ _ _ (by omega) h2)
    (get_values_mono f3 _ _ _ _ (by omega) h3)
    (get_values_mono f4 _ _ _ _ (by omega) h4)
    (get_values_mono f5 _ _ _ _ (by omega) h5)⟩

/-- C4: for every well-formed tuple of range specs, the combination count
computed by `validate_parameter_ranges` (per-slot step-counting formula
`floor((max-min)/step)+1`, minimum 1, multiplied over the five slots)
equals the length of the list returned by
`generate_parameter_combinations`; in exact (rational) arithmetic the
step-based counting and the explicit enumeration always agree.  The
expansion also terminates for some fuel. -/
theorem c4_validate_count_matches_expand (req : ExperimentRequest)
    (hw : wellFormedReq req = true) :
    (∀ fuel L, generate_parameter_combinations fuel req = some L →
      totalCombinations req = (L.length : ℤ)) ∧
    (∃ fuel L, generate_parameter_combinations fuel req = some L) :=
  ⟨fun fuel L h => total_eq_expand_len req hw fuel L h, generate_total req hw⟩

/-- The C4 boundary example: temperature `{min 0, max 1, step 0.5}`
(everything else defaulted). -/
def req450 : ExperimentRequest :=
  ⟨S ("Explain photosynthesis"), some ⟨0, 1, some (1 / 2), none⟩, none, none, none, none⟩

/-- C4 witness: the boundary case min=0, max=1, step=0.5 expands to the 3
temperatures 0, 0.5, 1.0 and `validate`'s count is also 3. -/
theorem c4_witness :
    wellFormedReq req450 = true ∧
    generate_parameter_combinations 10 req450 =
      some [⟨0, 1, 1000, 0, 0⟩, ⟨1 / 2, 1, 1000, 0, 0⟩, ⟨1, 1, 1000, 0, 0⟩] ∧
    totalCombinations req450 = 3 := by
  have hw : wellFormedReq req450 = true := by decide
  have hgen : generate_parameter_combinations 10 req450 =
      some [⟨0, 1, 1000, 0, 0⟩, ⟨1 / 2, 1, 1000, 0, 0⟩, ⟨1, 1, 1000, 0, 0⟩] := by decide
  have htot := (c4_validate_count_matches_expand req450 hw).1 10 _ hgen
  exact ⟨hw, hgen, by rw [htot]; rfl⟩

/-- The error message embeds the decimal digits of the computed count. -/
lemma tooManyMsg_carries_count (n : ℤ) :
    List.IsInfix (intDigits n) (tooManyMsg n) := by
  exact ⟨S ("Too many parameter combinations ("),
    S ("). Maximum allowed is ") ++ intDigits MAX_COMBINATIONS ++
      S (". Please reduce the ranges or step sizes."),
    by simp [tooManyMsg]⟩

/-- The error message embeds the fixed ceiling "50". -/
lemma tooManyMsg_carries_ceiling (n : ℤ) :
    List.IsInfix (S ("50")) (tooManyMsg n) := by
  have h50 : intDigits MAX_COMBINATIONS = S ("50") := by decide
  exact ⟨S ("Too many parameter combinations (") ++ intDigits n ++
      S ("). Maximum allowed is "),
    S (". Please reduce the ranges or step sizes."),
    by simp [tooManyMsg, h50]⟩

/-- C5: for a well-formed request whose expansion yields `L`, validation
fails exactly when `L` has more than 50 elements and succeeds at exactly
50; on failure the error message carries the computed count and the
ceiling 50, and `create_experiment` answers 400 with that message without
consulting the generation oracle at all. -/
theorem c5_validation_guard (req : ExperimentRequest) (hw : wellFormedReq req = true)
    (fuel : ℕ) (L : List Combination)
    (hL : generate_parameter_combinations fuel req = some L) :
    ((validate_parameter_ranges req).1 = false ↔ 50 < L.length) ∧
    (50 < L.length →
      validate_parameter_ranges req = (false, some (tooManyMsg (L.length : ℤ))) ∧
      List.IsInfix (intDigits (L.length : ℤ)) (tooManyMsg (L.length : ℤ)) ∧
      List.IsInfix (S ("50")) (tooManyMsg (L.length : ℤ))) ∧
    (L.length = 50 → validate_parameter_ranges req = (true, none)) ∧
    (50 < L.length → ∀ gen gen2 f2,
      create_experiment f2 gen req = Except.error (400, tooManyMsg (L.length : ℤ)) ∧
      create_experiment f2 gen2 req = create_experiment f2 gen req) := by
  have htot : totalCombinations req = (L.length : ℤ) := total_eq_expand_len req hw fuel L hL
  have hiff : MAX_COMBINATIONS < totalCombinations req ↔ 50 < L.length := by
    rw [htot]
    unfold MAX_COMBINATIONS
    exact_mod_cast Iff.rfl
  refine ⟨?_, ?_, ?_, ?_⟩
  · unfold validate_parameter_ranges
    by_cases hgt : MAX_COMBINATIONS < totalCombinations req
    · rw [if_pos hgt]
      simpa using hiff.mp hgt
    · rw [if_neg hgt]
      simp only []
      constructor
      · intro hfalse
        exact absurd hfalse (by simp)
      · intro hlen
        exact absurd (hiff.mpr hlen) hgt
  · intro hlen
    have hgt := hiff.mpr hlen
    refine ⟨?_, tooManyMsg_carries_count _, tooManyMsg_carries_ceiling _⟩
    unfold validate_parameter_ranges
    rw [if_pos hgt, htot]
  · intro hlen
    have hngt : ¬(MAX_COMBINATIONS < totalCombinations req) := by
      intro hgt
      have := hiff.mp hgt
      omega
    unfold validate_parameter_ranges
    rw [if_neg hngt]
  · intro hlen gen gen2 f2
    have hval : validate_parameter_ranges req = (false, some (tooManyMsg (L.length : ℤ))) := by
      unfold validate_parameter_ranges
      rw [if_pos (hiff.mpr hlen), htot]
    constructor
    · unfold create_experiment
      rw [hval]
      rfl
    · unfold create_experiment
      rw [hval]
      rfl


/-- A request whose temperature slot lists 51 explicit values. -/
def req51 : ExperimentRequest :=
  ⟨S ("p"), some ⟨0, 0, none, some ((List.range 51).map (fun i => (i : ℚ)))⟩,
    none, none, none, none⟩

/-- A request whose temperature slot lists 50 explicit values. -/
def req50 : ExperimentRequest :=
  ⟨S ("p"), some ⟨0, 0, none, some ((List.range 50).map (fun i => (i : ℚ)))⟩,
    none, none, none, none⟩

/-- The expansion of `req51`. -/
def l51 : List Combination :=
  (List.range 51).map (fun i => (⟨(i : ℚ), 1, 1000, 0, 0⟩ : Combination))

/-- The expansion of `req50`. -/
def l50 : List Combination :=
  (List.range 50).map (fun i => (⟨(i : ℚ), 1, 1000, 0, 0⟩ : Combination))

/-- C5 witness: 51 combinations are rejected with the message carrying
"51" and "50", 50 combinations are accepted, and the rejected request
answers 400 identically for two different generation oracles. -/
theorem c5_witness :
    validate_parameter_ranges req51 = (false, some (tooManyMsg 51)) ∧
    validate_parameter_ranges req50 = (true, none) ∧
    tooManyMsg 51 = S ("Too many parameter combinations (51). Maximum allowed is 50. Please reduce the ranges or step sizes.") ∧
    create_experiment 1 genFail req51 = Except.error (400, tooManyMsg 51) ∧
    create_experiment 1 genMix req51 = create_experiment 1 genFail req51 := by
  have hw : wellFormedReq req51 = true := by decide
  have hw2 : wellFormedReq req50 = true := by decide
  have hgen : generate_parameter_combinations 1 req51 = some l51 := by decide
  have hgen2 : generate_parameter_combinations 1 req50 = some l50 := by decide
  have hlen : l51.length = 51 := by decide
  have hlen2 : l50.length = 50 := by decide
  have h := c5_validation_guard req51 hw 1 l51 hgen
  have h2 := c5_validation_guard req50 hw2 1 l50 hgen2
  have hgt : 50 < l51.length := by omega
  have hfail := (h.2.1 hgt).1
  have hcast : ((l51.length : ℤ)) = 51 := by rw [hlen]; rfl
  rw [hcast] at hfail
  have hcreate := h.2.2.2 hgt genFail genMix 1
  rw [hcast] at hcreate
  refine ⟨hfail, ?_, by decide, hcreate.1, hcreate.2⟩
  exact h2.2.2.1 hlen2

/- ------------------------------------------------------------------ -/
/- C8                                                                  -/
/- ------------------------------------------------------------------ -/

/-- Sliding windows of width 3, by pattern matching (proof-side view of
the `words[i:i+3]` loop). -/
def ngrams3 {α : Type} : List α → List (List α)
  | a :: b :: c :: rest => [a, b, c] :: ngrams3 (b :: c :: rest)
  | _ => []

/-- The index-based n-gram extraction of `_repetition_penalty` equals the
pattern-matching sliding window. -/
lemma pyNgrams_eq_ngrams3 : ∀ (words : List (List Char)), pyNgrams words = ngrams3 words := by
  intro words
  induction words with
  | nil => rfl
  | cons a t ih =>
    cases t with
    | nil => rfl
    | cons b t2 =>
      cases t2 with
      | nil => rfl
      | cons c rest =>
        have hlen : (a :: b :: c :: rest).length - 2 = rest.length + 1 := by
          simp
        unfold pyNgrams
        rw [hlen, List.range_succ_eq_map, List.map_cons, List.map_map]
        have htail : (List.range ((b :: c :: rest).length - 2)).map
            (fun i => ((b :: c :: rest).drop i).take 3) =
            (List.range rest.length).map
              ((fun i => ((a :: b :: c :: rest).drop i).take 3) ∘ Nat.succ) := by
          simp
        rw [show ngrams3 (a :: b :: c :: rest) =
          [a, b, c] :: ngrams3 (b :: c :: rest) from rfl, ← ih]
        unfold pyNgrams
        rw [htail]
        rfl

/-- `ngrams3` produces `length - 2` windows. -/
lemma ngrams3_length {α : Type} : ∀ (l : List α), (ngrams3 l).length = l.length - 2 := by
  intro l
  induction l with
  | nil => rfl
  | cons a t ih =>
    cases t with
    | nil => rfl
    | cons b t2 =>
      cases t2 with
      | nil => rfl
      | cons c rest =>
        have : ngrams3 (a :: b :: c :: rest) = [a, b, c] :: ngrams3 (b :: c :: rest) := rfl
        rw [this, List.length_cons, ih]
        simp

/-- Windows of a prefix are windows of the whole list. -/
lemma ngrams3_subset_append {α : Type} : ∀ (a b : List α), ngrams3 a ⊆ ngrams3 (a ++ b) := by
  intro a
  induction a with
  | nil => intro b; simp [ngrams3]
  | cons x t ih =>
    intro b
    cases t with
    | nil => intro g hg; simp [ngrams3] at hg
    | cons y t2 =>
      cases t2 with
      | nil => intro g hg; simp [ngrams3] at hg
      | cons z rest =>
        intro g hg
        rw [show ngrams3 (x :: y :: z :: rest) = [x, y, z] :: ngrams3 (y :: z :: rest)
          from rfl] at hg
        rw [show (x :: y :: z :: rest) ++ b = x :: y :: z :: (rest ++ b) from rfl,
          show ngrams3 (x :: y :: z :: (rest ++ b)) =
            [x, y, z] :: ngrams3 (y :: z :: (rest ++ b)) from rfl]
        rcases List.mem_cons.mp hg with rfl | h
        · exact List.mem_cons_self _ _
        · exact List.mem_cons_of_mem _ (ih b h)

/-- Windows of a list are windows of it with anything consed in front. -/
lemma ngrams3_subset_cons {α : Type} (x : α) (l : List α) : ngrams3 l ⊆ ngrams3 (x :: l) := by
  cases l with
  | nil => simp [ngrams3]
  | cons a t =>
    cases t with
    | nil => intro g hg; simp [ngrams3] at hg
    | cons b t2 =>
      intro g hg
      rw [show ngrams3 (x :: a :: b :: t2) = [x, a, b] :: ngrams3 (a :: b :: t2) from rfl]
      exact List.mem_cons_of_mem _ hg

/-- Taking `n` from the second summand does not change the first `n` of an
append. -/
lemma take_append_take {α : Type} (n : ℕ) (xs ys : List α) :
    (xs ++ ys.take n).take n = (xs ++ ys).take n := by
  rw [List.take_append_eq_append_take, List.take_append_eq_append_take, List.take_take,
    min_eq_left (Nat.sub_le n xs.length)]

/-- A window of `a ++ b` is either a window of `a ++ (first two of b)` or
a window of `b`. -/
lemma ngrams3_cross {α : Type} : ∀ (a b : List α),
    ngrams3 (a ++ b) ⊆ ngrams3 (a ++ b.take 2) ++ ngrams3 b := by
  intro a
  induction a with
  | nil =>
    intro b g hg
    exact List.mem_append_right _ hg
  | cons x t ih =>
    intro b g hg
    rcases htb : t ++ b with _ | ⟨y, rest1⟩
    · rw [List.cons_append, htb] at hg
      simp [ngrams3] at hg
    · rcases hr1 : rest1 with _ | ⟨z, w⟩
      · rw [List.cons_append, htb, hr1] at hg
        simp [ngrams3] at hg
      · rw [List.cons_append, htb, hr1] at hg
        rw [show ngrams3 (x :: y :: z :: w) = [x, y, z] :: ngrams3 (y :: z :: w) from rfl] at hg
        have htake2 : (t ++ b.take 2).take 2 = [y, z] := by
          rw [take_append_take, htb, hr1]
          rfl
        obtain ⟨w2, hw2⟩ : ∃ w2, t ++ b.take 2 = y :: z :: w2 := by
          rcases hs : t ++ b.take 2 with _ | ⟨y2, _ | ⟨z2, w2⟩⟩
          · rw [hs] at htake2; simp at htake2
          · rw [hs] at htake2; simp at htake2
          · rw [hs] at htake2
            simp at htake2
            exact ⟨w2, by rw [htake2.1, htake2.2]⟩
        rcases List.mem_cons.mp hg with rfl | h
        · refine List.mem_append_left _ ?_
          rw [List.cons_append, hw2]
          rw [show ngrams3 (x :: y :: z :: w2) = [x, y, z] :: ngrams3 (y :: z :: w2) from rfl]
          exact List.mem_cons_self _ _
        · have h2 : g ∈ ngrams3 (t ++ b) := by rw [htb, hr1]; exact h
          rcases List.mem_append.mp (ih b h2) with h3 | h3
          · exact List.mem_append_left _
              (by rw [List.cons_append]; exact ngrams3_subset_cons x _ h3)
          · exact List.mem_append_right _ h3

/-- All windows of `n` copies of a block with at least two elements are
windows of two copies. -/
lemma ngrams3_replicate_two (ws : List (List Char)) (hk : 2 ≤ ws.length) :
    ∀ n, ngrams3 ((List.replicate n ws).flatten) ⊆ ngrams3 (ws ++ ws) := by
  intro n
  induction n with
  | zero => simp [ngrams3]
  | succ m ih =>
    cases m with
    | zero =>
      simp only [List.replicate_succ, List.replicate_zero, List.flatten_cons, List.flatten_nil,
        List.append_nil]
      exact ngrams3_subset_append ws ws
    | succ m2 =>
      intro g hg
      rw [List.replicate_succ, List.flatten_cons] at hg
      have hcross := ngrams3_cross ws ((List.replicate (m2 + 1) ws).flatten) hg
      have htake : ((List.replicate (m2 + 1) ws).flatten).take 2 = ws.take 2 := by
        rw [List.replicate_succ, List.flatten_cons, List.take_append_of_le_length hk]
      rw [htake] at hcross
      rcases List.mem_append.mp hcross with h | h
      · have hsub := ngrams3_subset_append (ws ++ ws.take 2) (ws.drop 2) h
        rwa [List.append_assoc, List.take_append_drop] at hsub
      · exact ih h

/-- All windows of `n` copies of a single element equal that element
repeated three times. -/
lemma ngrams3_replicate_one {α : Type} (x : α) :
    ∀ (n : ℕ) (g : List α), g ∈ ngrams3 (List.replicate n x) → g = [x, x, x] := by
  intro n
  induction n with
  | zero => intro g hg; simp [ngrams3] at hg
  | succ m ih =>
    intro g hg
    rw [List.replicate_succ] at hg
    rcases hml : List.replicate m x with _ | ⟨y, _ | ⟨z, w⟩⟩
    · rw [hml] at hg; simp [ngrams3] at hg
    · rw [hml] at hg; simp [ngrams3] at hg
    · have hy : y = x := by
        have : y ∈ List.replicate m x := by rw [hml]; exact List.mem_cons_self _ _
        exact List.eq_of_mem_replicate this
      have hz : z = x := by
        have : z ∈ List.replicate m x := by
          rw [hml]; exact List.mem_cons_of_mem _ (List.mem_cons_self _ _)
        exact List.eq_of_mem_replicate this
      rw [hml] at hg
      rw [show ngrams3 (x :: y :: z :: w) = [x, y, z] :: ngrams3 (y :: z :: w) from rfl] at hg
      rcases List.mem_cons.mp hg with rfl | h
      · rw [hy, hz]
      · exact ih g (hml ▸ h)

/-- Flattening `n` copies of a singleton block. -/
lemma flatten_replicate_singleton {α : Type} (x : α) :
    ∀ n, (List.replicate n [x]).flatten = List.replicate n x := by
  intro n
  induction n with
  | zero => rfl
  | succ m ih => simp [List.replicate_succ, ih]

/-- Length of the flattening of `n` copies of a block. -/
lemma flatten_replicate_length {α : Type} (n : ℕ) (l : List α) :
    ((List.replicate n l).flatten).length = n * l.length := by
  simp [List.length_flatten, List.map_replicate, List.sum_replicate, smul_eq_mul]

/-- The distinct 3-grams of ten copies of a word block are at most a
fifth of the total 3-gram count. -/
lemma unique_ngrams_bound (ws : List (List Char)) (hws : ws ≠ []) :
    5 * ((ngrams3 ((List.replicate 10 ws).flatten)).dedup.length) ≤ 10 * ws.length - 2 := by
  have hk1 : 1 ≤ ws.length := List.length_pos.mpr hws
  by_cases h2 : 2 ≤ ws.length
  · have hsub : ngrams3 ((List.replicate 10 ws).flatten) ⊆ ngrams3 (ws ++ ws) :=
      ngrams3_replicate_two ws h2 10
    have hcard : (ngrams3 ((List.replicate 10 ws).flatten)).dedup.length ≤
        (ngrams3 (ws ++ ws)).length := by
      calc (ngrams3 ((List.replicate 10 ws).flatten)).dedup.length
          = (ngrams3 ((List.replicate 10 ws).flatten)).toFinset.card :=
            (List.card_toFinset _).symm
        _ ≤ (ngrams3 (ws ++ ws)).toFinset.card :=
            Finset.card_le_card (fun x hx =>
              List.mem_toFinset.mpr (hsub (List.mem_toFinset.mp hx)))
        _ ≤ (ngrams3 (ws ++ ws)).length := List.toFinset_card_le _
    have hlen2 : (ngrams3 (ws ++ ws)).length = 2 * ws.length - 2 := by
      rw [ngrams3_length, List.length_append]
      omega
    omega
  · have hk : ws.length = 1 := by omega
    obtain ⟨x, rfl⟩ := List.length_eq_one.mp hk
    have hW : (List.replicate 10 [x]).flatten = List.replicate 10 x :=
      flatten_replicate_singleton x 10
    have hcard : (ngrams3 ((List.replicate 10 [x]).flatten)).dedup.length ≤ 1 := by
      calc (ngrams3 ((List.replicate 10 [x]).flatten)).dedup.length
          = (ngrams3 ((List.replicate 10 [x]).flatten)).toFinset.card :=
            (List.card_toFinset _).symm
        _ ≤ ({[x, x, x]} : Finset (List (List Char))).card :=
            Finset.card_le_card (fun g hg => by
              rw [Finset.mem_singleton]
              exact ngrams3_replicate_one x 10 g (hW ▸ List.mem_toFinset.mp hg))
        _ = 1 := rfl
    simp only [List.length_cons, List.length_nil]
    omega

/-- Evaluation of `_repetition_penalty` on a text whose word sequence is
one word block repeated ten times: the 3-gram repetition ratio reaches the
0.8 cap, so the score is exactly the floor 0.2 = 1/5. -/
lemma repetition_penalty_repeated (t1 : List Char) (ws : List (List Char))
    (hws : ws ≠ []) (hlen : 20 ≤ t1.length)
    (hrep : pyWords (pyLower t1) = (List.replicate 10 ws).flatten) :
    repetition_penalty t1 = 1 / 5 := by
  have hk1 : 1 ≤ ws.length := List.length_pos.mpr hws
  have hWlen : (pyWords (pyLower t1)).length = 10 * ws.length := by
    rw [hrep]
    exact flatten_replicate_length 10 ws
  have ht1ne : t1.isEmpty = false := by
    cases t1 with
    | nil => simp at hlen
    | cons a l => rfl
  have hlt20 : ¬(t1.length < 20) := by omega
  have hnlen : (pyNgrams (pyWords (pyLower t1))).length = 10 * ws.length - 2 := by
    rw [pyNgrams_eq_ngrams3, ngrams3_length, hWlen]
  have hne : (pyNgrams (pyWords (pyLower t1))).isEmpty = false := by
    cases h : pyNgrams (pyWords (pyLower t1)) with
    | nil => rw [h] at hnlen; simp at hnlen; omega
    | cons a l => rfl
  have hN : 0 < (pyNgrams (pyWords (pyLower t1))).length := by omega
  have hu : 5 * (pyNgrams (pyWords (pyLower t1))).dedup.length ≤
      (pyNgrams (pyWords (pyLower t1))).length := by
    rw [hnlen, pyNgrams_eq_ngrams3, hrep]
    exact unique_ngrams_bound ws hws
  have hdiv : ((pyNgrams (pyWords (pyLower t1))).dedup.length : ℚ) /
      ((pyNgrams (pyWords (pyLower t1))).length : ℚ) ≤ 1 / 5 := by
    rw [div_le_div_iff₀ (by exact_mod_cast hN) (by norm_num)]
    have huQ : (5 : ℚ) * ((pyNgrams (pyWords (pyLower t1))).dedup.length : ℚ) ≤
        ((pyNgrams (pyWords (pyLower t1))).length : ℚ) := by exact_mod_cast hu
    linarith
  have hr1 : (4 : ℚ) / 5 ≤
      1 - ((pyNgrams (pyWords (pyLower t1))).dedup.length : ℚ) /
        ((pyNgrams (pyWords (pyLower t1))).length : ℚ) := by linarith
  simp only [repetition_penalty, ht1ne, Bool.false_or, decide_eq_false hlt20,
    Bool.false_eq_true, if_false]
  rw [if_neg (show ¬((pyWords (pyLower t1)).length < 5) from by omega)]
  rw [hne]
  simp only [Bool.false_eq_true, if_false]
  set R := (if 1 < (((splitRunAux isPunct t1).filter
      (fun s => 10 < (pyStrip s).length)).map (fun s => pyLower (pyStrip s))).length then
      max (1 - ((pyNgrams (pyWords (pyLower t1))).dedup.length : ℚ) /
        ((pyNgrams (pyWords (pyLower t1))).length : ℚ))
        ((1 - ((((splitRunAux isPunct t1).filter
          (fun s => 10 < (pyStrip s).length)).map (fun s => pyLower (pyStrip s))).dedup.length : ℚ) /
          ((((splitRunAux isPunct t1).filter
            (fun s => 10 < (pyStrip s).length)).map (fun s => pyLower (pyStrip s))).length : ℚ)) * 0.7)
    else
      1 - ((pyNgrams (pyWords (pyLower t1))).dedup.length : ℚ) /
        ((pyNgrams (pyWords (pyLower t1))).length : ℚ)) with hR
  have hr2 : (4 : ℚ) / 5 ≤ R := by
    rw [hR]
    split_ifs
    · exact le_trans hr1 (le_max_left _ _)
    · exact hr1
  have hmin : min R 0.8 = 0.8 := min_eq_right (le_trans (by norm_num) hr2)
  rw [hmin]
  rw [show (1 : ℚ) - 0.8 = 0.2 from by norm_num, max_self]
  norm_num

/-- `_repetition_penalty` never goes below 0.2 = 1/5. -/
lemma repetition_penalty_ge (t : List Char) : 1 / 5 ≤ repetition_penalty t := by
  simp only [repetition_penalty]
  split_ifs <;> norm_num

/-- C8 (amended): a text that is one sentence (word block) repeated ten
times scores exactly the floor 0.2, hence at most — not strictly below —
the repetitionPenalty of any other text, including one of 10 distinct
sentences. -/
theorem c8_repeated_floor_le (t1 t2 : List Char) (ws : List (List Char))
    (hws : ws ≠ []) (hlen : 20 ≤ t1.length)
    (hrep : pyWords (pyLower t1) = (List.replicate 10 ws).flatten) :
    repetition_penalty t1 = 1 / 5 ∧ repetition_penalty t1 ≤ repetition_penalty t2 := by
  have h1 := repetition_penalty_repeated t1 ws hws hlen hrep
  refine ⟨h1, ?_⟩
  rw [h1]
  exact repetition_penalty_ge t2

/-- C8 witness: `"ab."` repeated ten times against a two-sentence text. -/
theorem c8_witness :
    pyWords (pyLower (S ("ab. ab. ab. ab. ab. ab. ab. ab. ab. ab."))) =
      (List.replicate 10 [S ("ab.")]).flatten ∧
    repetition_penalty (S ("ab. ab. ab. ab. ab. ab. ab. ab. ab. ab.")) = 1 / 5 ∧
    repetition_penalty (S ("ab. ab. ab. ab. ab. ab. ab. ab. ab. ab.")) ≤
      repetition_penalty (S ("One two. Three four.")) := by
  have h := c8_repeated_floor_le (S ("ab. ab. ab. ab. ab. ab. ab. ab. ab. ab."))
    (S ("One two. Three four.")) [S ("ab.")] (by decide) (by decide) (by decide)
  exact ⟨by decide, h.1, h.2⟩

/-- One 15-word sentence repeated ten times. -/
def tRep : List Char := S ("a a a a a a a a a a a a a a z. a a a a a a a a a a a a a a z. a a a a a a a a a a a a a a z. a a a a a a a a a a a a a a z. a a a a a a a a a a a a a a z. a a a a a a a a a a a a a a z. a a a a a a a a a a a a a a z. a a a a a a a a a a a a a a z. a a a a a a a a a a a a a a z. a a a a a a a a a a a a a a z.")

/-- Ten distinct 15-word sentences of equal length. -/
def tDist : List Char := S ("a a a a a a a a a a a a a a 1. a a a a a a a a a a a a a a 2. a a a a a a a a a a a a a a 3. a a a a a a a a a a a a a a 4. a a a a a a a a a a a a a a 5. a a a a a a a a a a a a a a 6. a a a a a a a a a a a a a a 7. a a a a a a a a a a a a a a 8. a a a a a a a a a a a a a a 9. a a a a a a a a a a a a a a 10.")

set_option maxRecDepth 1000000 in
/-- C8 counterexample: the repeated-sentence text and a text of 10
distinct sentences of the same length both score exactly 0.2 (the
distinct text's 3-gram repetition ratio also reaches the 0.8 cap), so the
repeated text's repetitionPenalty is not strictly lower. -/
theorem c8_counterexample :
    repetition_penalty tRep = 1 / 5 ∧
    repetition_penalty tDist = 1 / 5 ∧
    ¬(repetition_penalty tRep < repetition_penalty tDist) := by
  have h1 : repetition_penalty tRep = 1 / 5 := by decide
  have h2 : repetition_penalty tDist = 1 / 5 := by decide
  refine ⟨h1, h2, ?_⟩
  rw [h1, h2]
  exact lt_irrefl _
